import Mathlib

/-!
Verification of the object codec, KVLM codec, tree codec, reference
resolver, index store and checkout engine of libowngit.py, a small
content-addressable version-control storage engine.

Modelling conventions, used throughout:

* Python byte strings and text strings alike are modelled as `List Nat`
  (one element per byte, or per code point for text): on the ASCII data
  these formats carry (modes, keys, hex hashes, names, ref paths) the
  UTF-8 codec is the identity and byte order agrees with code-point order,
  so the modelling is exact.
* Fallible code returns `Option` or `Except`: a raised exception, an
  uncaught runtime fault, or divergence of the source is `none` (or an
  explicit error value when the source raises with a message).  Recursions
  of the source that can diverge on malformed input take fuel; whenever the
  source terminates, the fuel chosen by the wrappers suffices, so the
  wrappers compute exactly the value the source returns.
* External library calls (SHA-1, zlib) are parameters: the functions under
  scrutiny are proved for every choice of those parameters.
-/

/-- Slice `raw[a:b]` of a Python byte string, for nonnegative bounds
(Python clamps out-of-range bounds, as do drop and take). -/
def pySlice (raw : List Nat) (a b : Nat) : List Nat :=
  (raw.drop a).take (b - a)

/-- ASCII bytes of a Lean string literal (used only on ASCII literals). -/
def strBytes (s : String) : List Nat :=
  s.data.map Char.toNat

/-- Helper for `bfind`: first index at or after `i` holding byte `c`. -/
def bfindAux (c : Nat) : List Nat → Nat → Option Nat
  | [], _ => none
  | b :: bs, i => if b = c then some i else bfindAux c bs (i + 1)

/-- Python `raw.find(c, start)` for a single byte `c`: index of the first
occurrence of `c` at or after `start`, or `none` where Python returns -1. -/
def bfind (raw : List Nat) (c : Nat) (start : Nat) : Option Nat :=
  bfindAux c (raw.drop start) start

/-- Python `bytes.replace(b"\n ", b"\n")`: drop the space after each
newline, scanning left to right without overlap. -/
def unescapeNl : List Nat → List Nat
  | 10 :: 32 :: rest => 10 :: unescapeNl rest
  | b :: rest => b :: unescapeNl rest
  | [] => []

/-- Python `bytes.replace(b"\n", b"\n ")`: insert a space after each
newline. -/
def escapeNl : List Nat → List Nat
  | 10 :: rest => 10 :: 32 :: escapeNl rest
  | b :: rest => b :: escapeNl rest
  | [] => []

/-! ## KVLM codec (src/libowngit.py lines 371-444)

A commit or tag body is an ordered key-value mapping plus a message stored
under the Python key `None`.  The ordered dict is modelled as the list of
its non-None entries (in first-insertion order, as Python dicts preserve)
together with an optional message. -/

/-- A value in the kvlm dict: Python stores either a bare byte string or,
after a repeated key, a list of byte strings. -/
inductive KvVal
  | single (v : List Nat)
  | multi (vs : List (List Nat))
  deriving DecidableEq, Repr

/-- The parse result of `kvlm_parse`: ordered fields plus the message that
Python stores under the key `None`. -/
structure KVLM where
  fields : List (List Nat × KvVal)
  msg : Option (List Nat)
  deriving DecidableEq, Repr

/-- The dict update of `kvlm_parse` lines 416-422: append to an existing
value (promoting a bare value to a two-element list) or insert a fresh key
at the end. -/
def kvlmInsert : List (List Nat × KvVal) → List Nat → List Nat → List (List Nat × KvVal)
  | [], k, v => [(k, KvVal.single v)]
  | (k0, v0) :: rest, k, v =>
    if k0 = k then
      (k0, match v0 with
           | KvVal.single x => KvVal.multi [x, v]
           | KvVal.multi xs => KvVal.multi (xs ++ [v])) :: rest
    else (k0, v0) :: kvlmInsert rest k v

/-- The value-end scan of `kvlm_parse` lines 407-409: starting from `e`,
step to the next newline until the byte after it is not a space.  Where the
source would index past the end (IndexError) or search past a last line
with no newline (find returns -1 and the source misreads or diverges), the
result is `none`. -/
def kvlmValueEnd : Nat → List Nat → Nat → Option Nat
  | 0, _, _ => none
  | fuel + 1, raw, e =>
    match bfind raw 10 (e + 1) with
    | none => none
    | some e2 =>
      match raw.get? (e2 + 1) with
      | none => none
      | some b => if b = 32 then kvlmValueEnd fuel raw e2 else some e2

/-- `kvlm_parse` (lines 371-424), with fuel for the recursion.  The source
recurses with a strictly larger start position, so fuel `raw.length + 1`
always suffices when the source terminates; exception paths (the failing
asserts, out-of-range indexing after a -1 find) give `none`. -/
def kvlm_parseF : Nat → List Nat → Nat → KVLM → Option KVLM
  | 0, _, _, _ => none
  | fuel + 1, raw, start, dct =>
    match bfind raw 32 start, bfind raw 10 start with
    | none, none => none
    | none, some nl =>
      if nl = start then some { dct with msg := some (raw.drop (start + 1)) } else none
    | some spc, nl? =>
      match nl? with
      | some nl =>
        if nl < spc then
          if nl = start then some { dct with msg := some (raw.drop (start + 1)) } else none
        else
          match kvlmValueEnd (raw.length + 1) raw start with
          | none => none
          | some e =>
            let key := pySlice raw start spc
            let value := unescapeNl (pySlice raw (spc + 1) e)
            kvlm_parseF fuel raw (e + 1) { dct with fields := kvlmInsert dct.fields key value }
      | none =>
        -- Python: nl = -1 < spc, so this is also the base case; then the
        -- assert nl == start fails (start is nonnegative), raising.
        none

/-- `kvlm_parse(raw)` at the top call (fresh ordered dict). -/
def kvlm_parse (raw : List Nat) : Option KVLM :=
  kvlm_parseF (raw.length + 1) raw 0 { fields := [], msg := none }

/-- The field lines emitted by `kvlm_serialize` for one key (lines
430-439): one line per value, continuation newlines re-escaped. -/
def kvFieldBytes (k : List Nat) : KvVal → List Nat
  | KvVal.single v => k ++ [32] ++ escapeNl v ++ [10]
  | KvVal.multi vs => (vs.map fun v => k ++ [32] ++ escapeNl v ++ [10]).flatten

/-- The byte string accumulated in `ret` by `kvlm_serialize` just before
its final return (lines 427-442): all field lines, a blank line, the
message, then one more newline.  `.error ()` is the KeyError raised on
line 442 when the dict has no message entry. -/
def kvlm_serialize_acc (kvlm : KVLM) : Except Unit (List Nat) :=
  match kvlm.msg with
  | none => Except.error ()
  | some m =>
    Except.ok ((kvlm.fields.map fun p => kvFieldBytes p.1 p.2).flatten ++ [10] ++ m ++ [10])

/-- `kvlm_serialize` (lines 426-444).  Line 444 is a bare `return`, so the
accumulated bytes are discarded and the function returns the Python value
None for every input on which it does not raise: `.ok none` models that
None, never `.ok (some bytes)`. -/
def kvlm_serialize (kvlm : KVLM) : Except Unit (Option (List Nat)) :=
  (kvlm_serialize_acc kvlm).map fun _ => none

/-- A well-formed one-field commit body, `b"k v\n\nm\n"`. -/
def c1Body : List Nat := [107, 32, 118, 10, 10, 109, 10]

/-- The parse of `c1Body`: one field and the message `b"m\n"`. -/
def c1Kvlm : KVLM :=
  { fields := [([107], KvVal.single [118])], msg := some [109, 10] }

/-- C1: the round-trip law serialize(parse(b)) == b fails on the code for
every well-formed body: `kvlm_serialize` ends with a bare return and
produces the Python value None (here at the concrete body `b"k v\n\nm\n"`),
and even the byte string it accumulates before that return appends an
extra trailing newline to the input. -/
theorem kvlm_roundtrip_code_bug :
    kvlm_parse c1Body = some c1Kvlm ∧
    kvlm_serialize c1Kvlm = Except.ok none ∧
    kvlm_serialize c1Kvlm ≠ Except.ok (some c1Body) ∧
    kvlm_serialize_acc c1Kvlm = Except.ok (c1Body ++ [10]) := by
  refine ⟨by decide, rfl, ?_, rfl⟩
  intro h
  exact Option.noConfusion (Except.ok.inj h)

/-! ## Tree codec (src/libowngit.py lines 510-567)

A tree leaf carries the raw mode bytes, the entry name (the source decodes
it as UTF-8; the bytes are kept, UTF-8 being a bijection onto valid names
that preserves code-point order) and the object hash as the ASCII bytes of
its hex form. -/

/-- Python bytes-or-str startswith. -/
def bytesStartsWith (l p : List Nat) : Bool :=
  decide (l.take p.length = p)

/-- One entry of a tree object. -/
structure GitTreeLeaf where
  mode : List Nat
  path : List Nat
  sha : List Nat
  deriving DecidableEq, Repr

/-- Value of a hex digit byte (meaningful on 0-9, a-f, A-F, the digits
int(s, 16) accepts). -/
def hexVal (b : Nat) : Nat :=
  if b ≤ 57 then b - 48 else if b ≤ 70 then b - 55 else b - 87

/-- The byte is an ASCII hex digit. -/
def isHexByte (b : Nat) : Prop :=
  (48 ≤ b ∧ b ≤ 57) ∨ (65 ≤ b ∧ b ≤ 70) ∨ (97 ≤ b ∧ b ≤ 102)

instance (b : Nat) : Decidable (isHexByte b) := by
  unfold isHexByte; infer_instance

/-- Accumulate a big-endian hex digit string. -/
def hexFold (s : List Nat) : Nat :=
  s.foldl (fun a b => 16 * a + hexVal b) 0

/-- Python `int(s, 16)` restricted to plain hex-digit strings (the only
shapes the codec produces): `none` is the ValueError on anything else. -/
def pyIntHex (s : List Nat) : Option Nat :=
  if s ≠ [] ∧ ∀ b ∈ s, isHexByte b then some (hexFold s) else none

/-- Lowercase hex digit byte for a value below 16 (format "x"). -/
def hexCharByte (n : Nat) : Nat :=
  if n < 10 then 48 + n else 87 + n

/-- Lowercase an ASCII hex digit byte. -/
def lowerHexByte (b : Nat) : Nat :=
  if 65 ≤ b ∧ b ≤ 70 then b + 32 else b

/-- Python `format(n, "0<k>x")`: k lowercase hex digits, big-endian. -/
def natToHexBE : Nat → Nat → List Nat
  | 0, _ => []
  | k + 1, n => natToHexBE k (n / 16) ++ [hexCharByte (n % 16)]

/-- Python `n.to_bytes(k, "big")`. -/
def natToBytesBE : Nat → Nat → List Nat
  | 0, _ => []
  | k + 1, n => natToBytesBE k (n / 256) ++ [n % 256]

/-- Python `int.from_bytes(s, "big")`. -/
def bytesToNatBE (s : List Nat) : Nat :=
  s.foldl (fun a b => 256 * a + b) 0

/-- `tree_parse_one` (lines 516-534).  A failing assert (mode width not 5
or 6) or a find that returns -1 (after which the source slices with
negative indices and misreads) is `none`.  Note line 525: a five-byte mode
is normalized by prepending a space byte. -/
def tree_parse_one (raw : List Nat) (start : Nat) : Option (Nat × GitTreeLeaf) :=
  match bfind raw 32 start with
  | none => none
  | some x =>
    if x - start = 5 ∨ x - start = 6 then
      let mode0 := pySlice raw start x
      let mode := if mode0.length = 5 then 32 :: mode0 else mode0
      match bfind raw 0 x with
      | none => none
      | some y =>
        let path := pySlice raw (x + 1) y
        let sha := natToHexBE 40 (bytesToNatBE (pySlice raw (y + 1) (y + 21)))
        some (y + 21, ⟨mode, path, sha⟩)
    else none

/-- The `while pos < max` loop of `tree_parse` (lines 536-544), with fuel.
Each parsed entry advances pos by at least 27 bytes, so fuel `raw.length`
always suffices when the source terminates. -/
def tree_parseF : Nat → List Nat → Nat → Option (List GitTreeLeaf)
  | 0, raw, pos => if pos < raw.length then none else some []
  | fuel + 1, raw, pos =>
    if pos < raw.length then
      match tree_parse_one raw pos with
      | none => none
      | some (pos2, leaf) => (tree_parseF fuel raw pos2).map (leaf :: ·)
    else some []

/-- `tree_parse(raw)`. -/
def tree_parse (raw : List Nat) : Option (List GitTreeLeaf) :=
  tree_parseF raw.length raw 0

/-- `tree_leaf_sort_key` (lines 551-555): the leaf name, with an extra "/"
appended unless the mode starts with "10". -/
def tree_leaf_sort_key (leaf : GitTreeLeaf) : List Nat :=
  if bytesStartsWith leaf.mode (strBytes "10") then leaf.path else leaf.path ++ [47]

/-- Bytewise lexicographic comparison, the order Python uses on the str
sort keys (code-point order, which agrees with byte order here). -/
def bytesLe : List Nat → List Nat → Bool
  | [], _ => true
  | _ :: _, [] => false
  | a :: xs, b :: ys => if a < b then true else if b < a then false else bytesLe xs ys

/-- The ordering `items.sort(key=tree_leaf_sort_key)` sorts by. -/
def leafLe (a b : GitTreeLeaf) : Prop :=
  bytesLe (tree_leaf_sort_key a) (tree_leaf_sort_key b) = true

instance : DecidableRel leafLe := fun a b => by
  unfold leafLe; infer_instance

/-- The bytes the `tree_serialize` loop body (lines 560-566) emits for one
entry: mode, space, path, NUL, then the sha hex parsed back into 20
big-endian bytes.  `none` models the ValueError or OverflowError that
int(sha, 16) or to_bytes(20, "big") raises on a non-hex or oversized sha. -/
def encodeLeaf (leaf : GitTreeLeaf) : Option (List Nat) :=
  match pyIntHex leaf.sha with
  | none => none
  | some n =>
    if n < 256 ^ 20 then
      some (leaf.mode ++ [32] ++ leaf.path ++ [0] ++ natToBytesBE 20 n)
    else none

/-- `tree_serialize` (lines 557-567): sort the items with the key function
(Python list.sort is a stable ascending sort; insertionSort with the same
total preorder reproduces its output exactly), then emit every entry. -/
def tree_serialize (items : List GitTreeLeaf) : Option (List Nat) :=
  ((List.insertionSort leafLe items).mapM encodeLeaf).map List.flatten

/-- The ordering key exactly as claim C7 words it: the directory entries,
those whose mode begins with "04", and only those, sort as if a trailing
separator were appended; every other mode sorts by bare name.  (Follows
the claim words, for comparison with tree_leaf_sort_key.) -/
def claimC7_sort_key (leaf : GitTreeLeaf) : List Nat :=
  if bytesStartsWith leaf.mode (strBytes "04") then leaf.path ++ [47] else leaf.path

/-- The ordering key as amended: entries whose mode begins with "10" sort
by bare name, and entries of every other mode (directories "04", symlinks
"12", gitlinks "16", space-normalized five-digit modes) sort as if a
trailing separator were appended.  (Follows the amended claim words.) -/
def amendedC7_sort_key (leaf : GitTreeLeaf) : List Nat :=
  if bytesStartsWith leaf.mode (strBytes "10") then leaf.path else leaf.path ++ [47]

/-- C7 counterexample: a symlink entry (mode "120000", not a directory)
named "a" gets the trailing separator appended by the code, while the
claim says entries of every mode other than "04" sort by their bare name. -/
theorem tree_sort_key_counterexample :
    tree_leaf_sort_key ⟨strBytes "120000", [97], []⟩ ≠
      claimC7_sort_key ⟨strBytes "120000", [97], []⟩ ∧
    tree_leaf_sort_key ⟨strBytes "120000", [97], []⟩ = [97, 47] ∧
    claimC7_sort_key ⟨strBytes "120000", [97], []⟩ = [97] := by
  refine ⟨by decide, by decide, by decide⟩

/-- C7 (amended): in the canonical ordering, entries whose mode begins
with "10" sort by bare name; entries of every other mode, the directory
modes beginning "04" among them, sort as if a trailing separator were
appended to their name. -/
theorem tree_sort_key_amended :
    (∀ leaf : GitTreeLeaf,
      bytesStartsWith leaf.mode (strBytes "10") = true →
        tree_leaf_sort_key leaf = leaf.path) ∧
    (∀ leaf : GitTreeLeaf,
      bytesStartsWith leaf.mode (strBytes "04") = true →
        tree_leaf_sort_key leaf = leaf.path ++ [47]) ∧
    (∀ leaf : GitTreeLeaf, tree_leaf_sort_key leaf = amendedC7_sort_key leaf) := by
  refine ⟨fun leaf h => ?_, fun leaf h => ?_, fun leaf => rfl⟩
  · simp [tree_leaf_sort_key, h]
  · have h04 : leaf.mode.take (strBytes "04").length = strBytes "04" :=
      of_decide_eq_true h
    have hlen : (strBytes "10").length = (strBytes "04").length := by decide
    have h10 : bytesStartsWith leaf.mode (strBytes "10") = false := by
      unfold bytesStartsWith
      apply decide_eq_false
      intro hq
      rw [hlen, h04] at hq
      exact absurd hq (by decide)
    simp [tree_leaf_sort_key, h10]

/-- C7 witness: the amended ordering evaluated at a regular-file entry and
at a directory entry. -/
theorem tree_sort_key_amended_witness :
    tree_leaf_sort_key ⟨strBytes "100644", [98], []⟩ = [98] ∧
    tree_leaf_sort_key ⟨strBytes "040000", [97], []⟩ = [97, 47] :=
  ⟨tree_sort_key_amended.1 _ (by decide), tree_sort_key_amended.2.1 _ (by decide)⟩

/-! ## Round-trip lemmas for the tree codec (claim C2) -/

/-- Validity of a tree entry as claim C2 describes it: a mode of 5 or 6
ASCII digits, a name free of the separators the wire format uses (NUL and
the path separator), and a 40-hex-digit hash. -/
def ValidLeaf (l : GitTreeLeaf) : Prop :=
  (l.mode.length = 5 ∨ l.mode.length = 6) ∧
  (∀ b ∈ l.mode, 48 ≤ b ∧ b ≤ 57) ∧
  (∀ b ∈ l.path, b < 256 ∧ b ≠ 0 ∧ b ≠ 47) ∧
  l.sha.length = 40 ∧ (∀ b ∈ l.sha, isHexByte b)

instance (l : GitTreeLeaf) : Decidable (ValidLeaf l) := by
  unfold ValidLeaf; infer_instance

/-- The bytes `tree_serialize` emits for a valid entry (the value inside
`encodeLeaf` when nothing raises). -/
def encBytes (l : GitTreeLeaf) : List Nat :=
  l.mode ++ [32] ++ l.path ++ [0] ++ natToBytesBE 20 (hexFold l.sha)

/-- What parsing gives back for a serialized valid entry: the mode
space-normalized to six bytes when it had five, and the hash lowercased. -/
def normalizeLeaf (l : GitTreeLeaf) : GitTreeLeaf :=
  ⟨if l.mode.length = 5 then 32 :: l.mode else l.mode, l.path, l.sha.map lowerHexByte⟩

theorem hexVal_lt_16 {b : Nat} (h : isHexByte b) : hexVal b < 16 := by
  unfold isHexByte at h
  unfold hexVal
  rcases h with h | h | h <;> split <;> (try split) <;> omega

theorem hexCharByte_hexVal {b : Nat} (h : isHexByte b) :
    hexCharByte (hexVal b) = lowerHexByte b := by
  unfold isHexByte at h
  unfold hexVal hexCharByte lowerHexByte
  rcases h with h | h | h <;> split_ifs <;> omega

theorem hexFold_append (xs : List Nat) (c : Nat) :
    hexFold (xs ++ [c]) = 16 * hexFold xs + hexVal c := by
  unfold hexFold
  rw [List.foldl_append]
  rfl

theorem hexFoldFrom_lt :
    ∀ (xs : List Nat) (a : Nat), (∀ b ∈ xs, isHexByte b) →
      List.foldl (fun a b => 16 * a + hexVal b) a xs < 16 ^ xs.length * (a + 1)
  | [], a, _ => by simp
  | c :: xs, a, h => by
    have hc : hexVal c < 16 := hexVal_lt_16 (h c (by simp))
    have ih := hexFoldFrom_lt xs (16 * a + hexVal c) (fun b hb => h b (by simp [hb]))
    calc List.foldl (fun a b => 16 * a + hexVal b) (16 * a + hexVal c) xs
        < 16 ^ xs.length * (16 * a + hexVal c + 1) := ih
      _ ≤ 16 ^ xs.length * (16 * (a + 1)) := by
          apply Nat.mul_le_mul_left
          omega
      _ = 16 ^ (c :: xs).length * (a + 1) := by
          simp [List.length_cons, pow_succ]
          ring

theorem hexFold_lt {s : List Nat} (h : ∀ b ∈ s, isHexByte b) :
    hexFold s < 16 ^ s.length := by
  have := hexFoldFrom_lt s 0 h
  simpa using this

theorem natToHexBE_hexFold :
    ∀ (s : List Nat), (∀ b ∈ s, isHexByte b) →
      natToHexBE s.length (hexFold s) = s.map lowerHexByte := by
  intro s
  induction s using List.reverseRecOn with
  | nil => intro _; rfl
  | append_singleton xs c ih =>
    intro h
    have hc : isHexByte c := h c (by simp)
    have hxs : ∀ b ∈ xs, isHexByte b := fun b hb => h b (by simp [hb])
    rw [hexFold_append]
    have hlen : (xs ++ [c]).length = xs.length + 1 := by simp
    rw [hlen]
    show natToHexBE xs.length ((16 * hexFold xs + hexVal c) / 16) ++
        [hexCharByte ((16 * hexFold xs + hexVal c) % 16)] = (xs ++ [c]).map lowerHexByte
    have hdiv : (16 * hexFold xs + hexVal c) / 16 = hexFold xs := by
      have := hexVal_lt_16 hc
      omega
    have hmod : (16 * hexFold xs + hexVal c) % 16 = hexVal c := by
      have := hexVal_lt_16 hc
      omega
    rw [hdiv, hmod, ih hxs, hexCharByte_hexVal hc]
    simp

theorem bytesToNatBE_append (xs : List Nat) (b : Nat) :
    bytesToNatBE (xs ++ [b]) = 256 * bytesToNatBE xs + b := by
  unfold bytesToNatBE
  rw [List.foldl_append]
  rfl

theorem length_natToBytesBE : ∀ (k n : Nat), (natToBytesBE k n).length = k
  | 0, _ => rfl
  | k + 1, n => by
    unfold natToBytesBE
    simp [length_natToBytesBE k]

theorem bytesToNatBE_natToBytesBE : ∀ (k n : Nat),
    bytesToNatBE (natToBytesBE k n) = n % 256 ^ k
  | 0, n => by simp [natToBytesBE, bytesToNatBE, Nat.mod_one]
  | k + 1, n => by
    unfold natToBytesBE
    rw [bytesToNatBE_append, bytesToNatBE_natToBytesBE k]
    have h : (256 : Nat) ^ (k + 1) = 256 * 256 ^ k := by ring
    rw [h, Nat.mod_mul]
    omega

theorem sha_roundtrip {s : List Nat} (hlen : s.length = 40)
    (hhex : ∀ b ∈ s, isHexByte b) :
    natToHexBE 40 (bytesToNatBE (natToBytesBE 20 (hexFold s))) = s.map lowerHexByte := by
  rw [bytesToNatBE_natToBytesBE]
  have hb : hexFold s < 256 ^ 20 := by
    have := hexFold_lt hhex
    rw [hlen] at this
    calc hexFold s < 16 ^ 40 := this
      _ = 256 ^ 20 := by norm_num
  rw [Nat.mod_eq_of_lt hb, ← hlen, natToHexBE_hexFold s hhex]

theorem bfindAux_append {c : Nat} :
    ∀ (xs rest : List Nat) (i : Nat), c ∉ xs →
      bfindAux c (xs ++ c :: rest) i = some (i + xs.length)
  | [], rest, i, _ => by simp [bfindAux]
  | x :: xs, rest, i, h => by
    have hx : ¬(x = c) := fun e => h (by simp [e])
    have h2 : c ∉ xs := fun hc => h (by simp [hc])
    show (if x = c then some i else bfindAux c (xs ++ c :: rest) (i + 1)) = _
    rw [if_neg hx, bfindAux_append xs rest (i + 1) h2]
    simp only [List.length_cons, Option.some.injEq]
    omega

/-- Parsing one entry out of a buffer whose suffix at `start` is a
serialized entry: the space after the mode and the NUL after the name are
found exactly where the encoder put them. -/
theorem tree_parse_one_suffix {raw : List Nat} {start : Nat} {M P S rest : List Nat}
    (hdrop : raw.drop start = M ++ 32 :: (P ++ 0 :: (S ++ rest)))
    (hM : M.length = 5 ∨ M.length = 6) (hM32 : 32 ∉ M) (hP0 : (0 : Nat) ∉ P)
    (hS : S.length = 20) :
    tree_parse_one raw start =
      some (start + (M.length + 1 + P.length + 1 + 20),
        ⟨if M.length = 5 then 32 :: M else M, P, natToHexBE 40 (bytesToNatBE S)⟩) := by
  have hfind1 : bfind raw 32 start = some (start + M.length) := by
    unfold bfind
    rw [hdrop]
    exact bfindAux_append M _ start hM32
  have hmode : pySlice raw start (start + M.length) = M := by
    unfold pySlice
    rw [hdrop, Nat.add_sub_cancel_left]
    exact List.take_left M _
  have hdrop2 : raw.drop (start + M.length) = 32 :: (P ++ 0 :: (S ++ rest)) := by
    have e := List.drop_drop M.length start raw
    rw [← e, hdrop]
    exact List.drop_left M _
  have h32P : (0 : Nat) ∉ 32 :: P := by
    simp only [List.mem_cons, not_or]
    exact ⟨by omega, hP0⟩
  have hfind2 : bfind raw 0 (start + M.length) =
      some (start + M.length + (P.length + 1)) := by
    unfold bfind
    rw [hdrop2]
    show bfindAux 0 ((32 :: P) ++ 0 :: (S ++ rest)) (start + M.length) = _
    rw [bfindAux_append (32 :: P) _ _ h32P]
    simp [List.length_cons]
  have hdrop3 : raw.drop (start + M.length + 1) = P ++ 0 :: (S ++ rest) := by
    have e := List.drop_drop 1 (start + M.length) raw
    rw [← e, hdrop2]
    rfl
  have hpath : pySlice raw (start + M.length + 1) (start + M.length + (P.length + 1)) = P := by
    unfold pySlice
    rw [hdrop3]
    have hd : start + M.length + (P.length + 1) - (start + M.length + 1) = P.length := by
      omega
    rw [hd]
    exact List.take_left P _
  have hdropP : List.drop (P.length + 1) (P ++ 0 :: (S ++ rest)) = S ++ rest := by
    have h1 : P ++ 0 :: (S ++ rest) = (P ++ [0]) ++ (S ++ rest) := by simp
    rw [h1]
    have := List.drop_left (P ++ [0]) (S ++ rest)
    simpa using this
  have hdrop4 : raw.drop (start + M.length + (P.length + 1) + 1) = S ++ rest := by
    have e := List.drop_drop (P.length + 1) (start + M.length + 1) raw
    rw [hdrop3, hdropP] at e
    have hi : start + M.length + 1 + (P.length + 1) =
        start + M.length + (P.length + 1) + 1 := by omega
    rw [hi] at e
    exact e.symm
  have hsha : pySlice raw (start + M.length + (P.length + 1) + 1)
      (start + M.length + (P.length + 1) + 21) = S := by
    unfold pySlice
    rw [hdrop4]
    have hd : start + M.length + (P.length + 1) + 21 -
        (start + M.length + (P.length + 1) + 1) = 20 := by omega
    rw [hd, ← hS]
    exact List.take_left S rest
  unfold tree_parse_one
  simp only [hfind1]
  rw [Nat.add_sub_cancel_left]
  rw [if_pos hM]
  simp only [hmode, hfind2, hpath, hsha]
  simp only [Option.some.injEq, Prod.mk.injEq]
  refine ⟨by omega, by simp⟩

theorem encBytes_length (l : GitTreeLeaf) :
    (encBytes l).length = l.mode.length + 1 + l.path.length + 1 + 20 := by
  simp [encBytes, length_natToBytesBE]
  omega

/-- Parsing the concatenation of serialized valid entries, at any offset,
returns exactly the normalized entries. -/
theorem tree_parseF_encodes :
    ∀ (L : List GitTreeLeaf) (pre : List Nat) (fuel : Nat),
      (∀ l ∈ L, ValidLeaf l) → L.length ≤ fuel →
      tree_parseF fuel (pre ++ (L.map encBytes).flatten) pre.length =
        some (L.map normalizeLeaf)
  | [], pre, fuel, _, _ => by
    cases fuel <;> simp [tree_parseF]
  | l :: L, pre, 0, hv, hf => by
    simp at hf
  | l :: L, pre, fuel + 1, hv, hf => by
    obtain ⟨hMlen, hMd, hPd, hSlen, hShex⟩ := hv l (by simp)
    simp only [List.map_cons, List.flatten_cons]
    have henc : 0 < (encBytes l).length := by
      rw [encBytes_length]; omega
    have hlt : pre.length < (pre ++ (encBytes l ++ (L.map encBytes).flatten)).length := by
      simp only [List.length_append]
      omega
    have hM32 : (32 : Nat) ∉ l.mode := fun h => by
      have := hMd 32 h; omega
    have hP0 : (0 : Nat) ∉ l.path := fun h => (hPd 0 h).2.1 rfl
    have hdrop : (pre ++ (encBytes l ++ (L.map encBytes).flatten)).drop pre.length =
        l.mode ++ 32 :: (l.path ++ 0 ::
          (natToBytesBE 20 (hexFold l.sha) ++ (L.map encBytes).flatten)) := by
      rw [List.drop_left]
      simp [encBytes, List.append_assoc]
    have hone := tree_parse_one_suffix hdrop hMlen hM32 hP0
      (length_natToBytesBE 20 (hexFold l.sha))
    unfold tree_parseF
    rw [if_pos hlt]
    simp only [hone]
    have hpos : pre.length + (l.mode.length + 1 + l.path.length + 1 + 20) =
        (pre ++ encBytes l).length := by
      simp only [List.length_append, encBytes_length]
    have hassoc : pre ++ (encBytes l ++ (L.map encBytes).flatten) =
        (pre ++ encBytes l) ++ (L.map encBytes).flatten :=
      (List.append_assoc _ _ _).symm
    rw [hpos, hassoc,
      tree_parseF_encodes L (pre ++ encBytes l) fuel
        (fun x hx => hv x (by simp [hx])) (by simp at hf ⊢; omega)]
    simp only [Option.map_some', Option.some.injEq, List.map_cons]
    have hsha := sha_roundtrip hSlen hShex
    simp [normalizeLeaf, hsha]

theorem encodeLeaf_eq {l : GitTreeLeaf} (h : ValidLeaf l) :
    encodeLeaf l = some (encBytes l) := by
  obtain ⟨hMlen, hMd, hPd, hSlen, hShex⟩ := h
  have hne : l.sha ≠ [] := by
    intro e
    rw [e] at hSlen
    simp at hSlen
  unfold encodeLeaf
  rw [pyIntHex, if_pos ⟨hne, hShex⟩]
  have hb : hexFold l.sha < 256 ^ 20 := by
    have := hexFold_lt hShex
    rw [hSlen] at this
    calc hexFold l.sha < 16 ^ 40 := this
      _ = 256 ^ 20 := by norm_num
  show (if hexFold l.sha < 256 ^ 20 then
      some (l.mode ++ [32] ++ l.path ++ [0] ++ natToBytesBE 20 (hexFold l.sha))
    else none) = some (encBytes l)
  rw [if_pos hb]
  rfl

theorem mapM_encodeLeaf :
    ∀ (L : List GitTreeLeaf), (∀ l ∈ L, ValidLeaf l) →
      L.mapM encodeLeaf = some (L.map encBytes)
  | [], _ => rfl
  | l :: L, h => by
    rw [List.mapM_cons, encodeLeaf_eq (h l (by simp)),
      mapM_encodeLeaf L (fun x hx => h x (by simp [hx]))]
    rfl

theorem length_le_flatten_encBytes :
    ∀ (L : List GitTreeLeaf), L.length ≤ (L.map encBytes).flatten.length
  | [] => by simp
  | l :: L => by
    simp only [List.map_cons, List.flatten_cons, List.length_append, List.length_cons]
    have h1 : 1 ≤ (encBytes l).length := by
      rw [encBytes_length]; omega
    have := length_le_flatten_encBytes L
    omega

theorem bytesLe_cons {a b : Nat} {xs ys : List Nat} :
    bytesLe (a :: xs) (b :: ys) = true ↔ a < b ∨ (a = b ∧ bytesLe xs ys = true) := by
  show (if a < b then true else if b < a then false else bytesLe xs ys) = true ↔ _
  split_ifs with h1 h2
  · simp [h1]
  · have hne : ¬(a = b) := by omega
    simp [h1, hne]
  · have he : a = b := by omega
    simp [h1, he]

theorem bytesLe_total : ∀ (x y : List Nat), bytesLe x y = true ∨ bytesLe y x = true
  | [], _ => Or.inl rfl
  | _ :: _, [] => Or.inr rfl
  | a :: xs, b :: ys => by
    rcases Nat.lt_trichotomy a b with h | h | h
    · left; rw [bytesLe_cons]; exact Or.inl h
    · subst h
      rcases bytesLe_total xs ys with h | h
      · left; rw [bytesLe_cons]; exact Or.inr ⟨rfl, h⟩
      · right; rw [bytesLe_cons]; exact Or.inr ⟨rfl, h⟩
    · right; rw [bytesLe_cons]; exact Or.inl h

theorem bytesLe_trans : ∀ {x y z : List Nat},
    bytesLe x y = true → bytesLe y z = true → bytesLe x z = true
  | [], _, _, _, _ => rfl
  | _ :: _, [], _, h1, _ => by simp [bytesLe] at h1
  | _ :: _, _ :: _, [], _, h2 => by simp [bytesLe] at h2
  | a :: xs, b :: ys, c :: zs, h1, h2 => by
    rw [bytesLe_cons] at h1 h2 ⊢
    rcases h1 with h1 | ⟨rfl, h1⟩
    · rcases h2 with h2 | ⟨rfl, h2⟩
      · exact Or.inl (h1.trans h2)
      · exact Or.inl h1
    · rcases h2 with h2 | ⟨rfl, h2⟩
      · exact Or.inl h2
      · exact Or.inr ⟨rfl, bytesLe_trans h1 h2⟩

theorem bytesLe_antisymm : ∀ {x y : List Nat},
    bytesLe x y = true → bytesLe y x = true → x = y
  | [], [], _, _ => rfl
  | [], _ :: _, _, h2 => by simp [bytesLe] at h2
  | _ :: _, [], h1, _ => by simp [bytesLe] at h1
  | a :: xs, b :: ys, h1, h2 => by
    rw [bytesLe_cons] at h1 h2
    rcases h1 with h1 | ⟨rfl, h1⟩
    · rcases h2 with h2 | ⟨e, h2⟩
      · exact absurd h2 (Nat.lt_asymm h1)
      · exact absurd e.symm (Nat.ne_of_lt h1)
    · rcases h2 with h2 | ⟨e, h2⟩
      · exact absurd h2 (Nat.lt_irrefl a)
      · rw [bytesLe_antisymm h1 h2]

instance : IsTotal GitTreeLeaf leafLe :=
  ⟨fun _ _ => bytesLe_total _ _⟩

instance : IsTrans GitTreeLeaf leafLe :=
  ⟨fun _ _ _ h1 h2 => bytesLe_trans h1 h2⟩

/-- Distinct separator-free names give distinct sort keys. -/
theorem sort_key_inj {a b : GitTreeLeaf} (ha : ValidLeaf a) (hb : ValidLeaf b)
    (hne : a.path ≠ b.path) : tree_leaf_sort_key a ≠ tree_leaf_sort_key b := by
  have ha47 : (47 : Nat) ∉ a.path := fun h => (ha.2.2.1 47 h).2.2 rfl
  have hb47 : (47 : Nat) ∉ b.path := fun h => (hb.2.2.1 47 h).2.2 rfl
  unfold tree_leaf_sort_key
  split_ifs <;> intro he
  · exact hne he
  · exact ha47 (he ▸ (by simp : (47 : Nat) ∈ b.path ++ [47]))
  · exact hb47 (he ▸ (by simp : (47 : Nat) ∈ a.path ++ [47]))
  · exact hne (by simpa using he)

/-- A valid directory entry with a five-digit mode. -/
def c2Leaf : GitTreeLeaf := ⟨strBytes "40000", [97], List.replicate 40 48⟩

/-- C2 counterexample: for the singleton entry set with mode "40000" (five
digits) the claim fails as stated: parsing the serialization does not
equal the (trivially sorted) input entries, because the parser normalizes
the five-digit mode by prepending a space byte. -/
theorem tree_roundtrip_counterexample :
    (tree_serialize [c2Leaf]).bind tree_parse ≠ some [c2Leaf] ∧
    (tree_serialize [c2Leaf]).bind tree_parse =
      some [⟨32 :: strBytes "40000", [97], List.replicate 40 48⟩] := by
  refine ⟨by decide, by decide⟩

/-- C2 (amended): for every valid entry set, parsing the serialization
succeeds and yields the entries sorted by the sort key of the
implementation (name, with a trailing separator appended unless the mode
begins "10"), each entry normalized: five-digit modes get a space byte
prepended, hashes come back lowercased.  When the names are pairwise
distinct the result does not depend on the order of the input list. -/
theorem tree_roundtrip_amended :
    (∀ entries : List GitTreeLeaf, (∀ l ∈ entries, ValidLeaf l) →
      (tree_serialize entries).bind tree_parse =
        some ((List.insertionSort leafLe entries).map normalizeLeaf)) ∧
    (∀ entries entries2 : List GitTreeLeaf, (∀ l ∈ entries, ValidLeaf l) →
      (entries.map GitTreeLeaf.path).Nodup → entries2.Perm entries →
      (tree_serialize entries2).bind tree_parse =
        (tree_serialize entries).bind tree_parse) := by
  have main : ∀ entries : List GitTreeLeaf, (∀ l ∈ entries, ValidLeaf l) →
      (tree_serialize entries).bind tree_parse =
        some ((List.insertionSort leafLe entries).map normalizeLeaf) := by
    intro entries hv
    have hvs : ∀ l ∈ List.insertionSort leafLe entries, ValidLeaf l := fun l hl =>
      hv l ((List.perm_insertionSort leafLe entries).mem_iff.mp hl)
    have hser : tree_serialize entries =
        some ((List.insertionSort leafLe entries).map encBytes).flatten := by
      unfold tree_serialize
      rw [mapM_encodeLeaf _ hvs]
      rfl
    rw [hser]
    show tree_parse ((List.insertionSort leafLe entries).map encBytes).flatten = _
    unfold tree_parse
    have := tree_parseF_encodes (List.insertionSort leafLe entries) []
      (((List.insertionSort leafLe entries).map encBytes).flatten.length) hvs
      (length_le_flatten_encBytes _)
    simpa using this
  refine ⟨main, ?_⟩
  intro entries entries2 hv hnd hperm
  have hv2 : ∀ l ∈ entries2, ValidLeaf l := fun l hl => hv l (hperm.subset hl)
  suffices h : List.insertionSort leafLe entries2 = List.insertionSort leafLe entries by
    rw [main entries hv, main entries2 hv2, h]
  have hperm2 : (List.insertionSort leafLe entries2).Perm (List.insertionSort leafLe entries) :=
    ((List.perm_insertionSort leafLe entries2).trans hperm).trans
      (List.perm_insertionSort leafLe entries).symm
  have hs1 : List.Sorted leafLe (List.insertionSort leafLe entries) :=
    List.sorted_insertionSort leafLe entries
  have hs2 : List.Sorted leafLe (List.insertionSort leafLe entries2) :=
    List.sorted_insertionSort leafLe entries2
  have hkeys : ∀ (L : List GitTreeLeaf), L.Perm entries →
      List.Pairwise (fun a b => tree_leaf_sort_key a ≠ tree_leaf_sort_key b) L := by
    intro L hL
    have hvL : ∀ l ∈ L, ValidLeaf l := fun l hl => hv l (hL.subset hl)
    have hndL : (L.map GitTreeLeaf.path).Nodup := (hL.map GitTreeLeaf.path).nodup_iff.mpr hnd
    have hpw : List.Pairwise (fun a b => a.path ≠ b.path) L := List.pairwise_map.mp hndL
    exact hpw.imp_of_mem fun {a b} ha hb hne => sort_key_inj (hvL a ha) (hvL b hb) hne
  have key1 := hkeys (List.insertionSort leafLe entries) (List.perm_insertionSort leafLe entries)
  have key2 := hkeys (List.insertionSort leafLe entries2)
    ((List.perm_insertionSort leafLe entries2).trans hperm)
  haveI : IsAntisymm GitTreeLeaf
      (fun a b => leafLe a b ∧ tree_leaf_sort_key a ≠ tree_leaf_sort_key b) :=
    ⟨fun a b h1 h2 => absurd (bytesLe_antisymm h1.1 h2.1) h1.2⟩
  exact List.eq_of_perm_of_sorted hperm2
    (List.Pairwise.and hs2 key2) (List.Pairwise.and hs1 key1)

/-- A valid regular-file entry. -/
def c2Ent1 : GitTreeLeaf := ⟨strBytes "100644", [98], List.replicate 40 48⟩

/-- A valid directory entry. -/
def c2Ent2 : GitTreeLeaf := ⟨strBytes "40000", [97], List.replicate 40 97⟩

/-- C2 witness: the amended round trip evaluated at a concrete two-entry
set, in both input orders. -/
theorem tree_roundtrip_amended_witness :
    (tree_serialize [c2Ent1, c2Ent2]).bind tree_parse =
      some ((List.insertionSort leafLe [c2Ent1, c2Ent2]).map normalizeLeaf) ∧
    (tree_serialize [c2Ent2, c2Ent1]).bind tree_parse =
      (tree_serialize [c2Ent1, c2Ent2]).bind tree_parse :=
  ⟨tree_roundtrip_amended.1 [c2Ent1, c2Ent2] (by decide),
   tree_roundtrip_amended.2 [c2Ent1, c2Ent2] [c2Ent2, c2Ent1] (by decide) (by decide)
     (List.Perm.swap c2Ent1 c2Ent2 [])⟩

/-! ## Object codec and store (src/libowngit.py lines 193-286)

The four object kinds as a tagged union; the store directory as a list of
(path, file bytes) pairs; SHA-1 (hashlib) and zlib are external libraries
and enter as function parameters. -/

/-- The typed payload of a git object. -/
inductive GitObject
  | blob (blobdata : List Nat)
  | tree (items : List GitTreeLeaf)
  | commit (kvlm : KVLM)
  | tag (kvlm : KVLM)
  deriving DecidableEq, Repr

/-- The fmt class attribute: the ASCII type token. -/
def GitObject.fmt : GitObject → List Nat
  | .blob _ => strBytes "blob"
  | .tree _ => strBytes "tree"
  | .commit _ => strBytes "commit"
  | .tag _ => strBytes "tag"

/-- `obj.serialize()`: blobs return their payload, trees their serialized
entries (error when the sha conversion raises), commits and tags the
result of kvlm_serialize, which is the Python None (see above). -/
def GitObject.serializeResult : GitObject → Except Unit (Option (List Nat))
  | .blob d => Except.ok (some d)
  | .tree items =>
    match tree_serialize items with
    | none => Except.error ()
    | some bs => Except.ok (some bs)
  | .commit kv => kvlm_serialize kv
  | .tag kv => kvlm_serialize kv

/-- The error kinds raised by the components under scrutiny; each carries
exactly the data the source interpolates into its exception message. -/
inductive GitError
  | noSuchReference (name : List Nat)
  | ambiguousReference (name : List Nat) (candidates : List (Option (List Nat)))
  | malformedObject (sha : List Nat)
  | unknownType (fmt : List Nat) (sha : List Nat)
  | notADirectory (path : List (List Nat))
  | notEmpty (path : List (List Nat))
  | assertFailed (msg : List Nat)
  | internalFault (msg : List Nat)
  deriving DecidableEq, Repr

/-- The store path "objects/<first two hex chars>/<remaining 38>" used by
object_read (line 218) and object_write (line 267), relative to the git
directory. -/
def objPath (sha : List Nat) : List Nat :=
  strBytes "objects/" ++ sha.take 2 ++ strBytes "/" ++ sha.drop 2

/-- The object-store directory contents: path to stored file bytes. -/
def lookupStore : List (List Nat × List Nat) → List Nat → Option (List Nat)
  | [], _ => none
  | (k, v) :: rest, p => if k = p then some v else lookupStore rest p

/-- Python `str(n).encode()` for a natural number: ASCII decimal. -/
def natToDecBytes (n : Nat) : List Nat :=
  (Nat.toDigits 10 n).map Char.toNat

/-- `object_write` (lines 257-273), parameterized by the external hash
(hashlib.sha1(...).hexdigest()) and compression (zlib.compress) functions.
Returns the digest together with the possibly extended store; writing is
skipped when a file already exists at the derived path (line 269).  `none`
models the exception when serialize() raises, or the TypeError raised by
len() when serialize() returns the Python None. -/
def object_write (sha1 : List Nat → List Nat) (compress : List Nat → List Nat)
    (obj : GitObject) (repo : Option (List (List Nat × List Nat))) :
    Option (List Nat × Option (List (List Nat × List Nat))) :=
  match obj.serializeResult with
  | Except.error _ => none
  | Except.ok none => none
  | Except.ok (some data) =>
    let result := obj.fmt ++ [32] ++ natToDecBytes data.length ++ [0] ++ data
    let sha := sha1 result
    match repo with
    | none => some (sha, none)
    | some store =>
      match lookupStore store (objPath sha) with
      | none => some (sha, some ((objPath sha, compress result) :: store))
      | some _ => some (sha, some store)

/-- Whitespace bytes Python int() strips. -/
def isPySpace (b : Nat) : Bool :=
  b = 32 || b = 9 || b = 10 || b = 13 || b = 11 || b = 12

/-- Value of a nonempty all-decimal digit string. -/
def decDigitsVal (ds : List Nat) : Option Nat :=
  if ds ≠ [] ∧ ∀ d ∈ ds, 48 ≤ d ∧ d ≤ 57 then
    some (ds.foldl (fun a d => 10 * a + (d - 48)) 0)
  else none

/-- Python `int(bs.decode("ascii"))`: ASCII check, surrounding whitespace
stripped, optional sign, decimal digits; `none` on any decode or parse
failure.  (Underscore separators, which int() also accepts, never occur in
the format and are not modelled.) -/
def pyIntOfAscii (bs : List Nat) : Option Int :=
  if bs.all (· < 128) then
    match (bs.dropWhile isPySpace).reverse.dropWhile isPySpace |>.reverse with
    | 45 :: ds => (decDigitsVal ds).map fun n => -(n : Int)
    | 43 :: ds => (decDigitsVal ds).map fun n => (n : Int)
    | ds => (decDigitsVal ds).map fun n => (n : Int)
  else none

/-- `object_read` (lines 214-249), parameterized by the external
decompression function and taking the presence of the fan-out directories
(`objDirs`, keyed by the two-character hash prefix, the directory
repo_dir checks) together with the store contents.  Line 218 computes the
path with `repo_file(repo, "objects", sha[0:2], sha[2:])` and no mkdir:
when the fan-out directory objects/<sha[0:2]> is absent, repo_dir returns
None, repo_file returns None, and line 220 evaluates os.path.isfile(None),
which raises TypeError — a crash, modelled as that error.  When the
directory exists but the file does not, `.ok none` is the Python None
returned at lines 220-221.  A declared length different from the payload
length raises "Malformed object <sha>" (line 234); an unrecognized type
token raises "Unknown type <fmt> for object <sha>" (line 246).  The paths
on which the source would misindex after a -1 find, or fail inside the
typed decoder, are internalFault errors; no claim depends on them. -/
def object_read (decompress : List Nat → List Nat) (objDirs : List Nat → Bool)
    (store : List (List Nat × List Nat)) (sha : List Nat) :
    Except GitError (Option GitObject) :=
  if objDirs (sha.take 2) = false then
    Except.error (GitError.internalFault (strBytes "TypeError: os.path.isfile(None)"))
  else
  match lookupStore store (objPath sha) with
  | none => Except.ok none
  | some fileData =>
    let raw := decompress fileData
    match bfind raw 32 0 with
    | none => Except.error (GitError.internalFault (strBytes "object header: no space"))
    | some x =>
      match bfind raw 0 x with
      | none => Except.error (GitError.internalFault (strBytes "object header: no NUL"))
      | some y =>
        match pyIntOfAscii (pySlice raw x y) with
        | none => Except.error (GitError.internalFault (strBytes "object header: size not an int"))
        | some size =>
          if size ≠ (raw.length : Int) - (y : Int) - 1 then
            Except.error (GitError.malformedObject sha)
          else
            let fmt := pySlice raw 0 x
            let payload := raw.drop (y + 1)
            if fmt = strBytes "commit" then
              match kvlm_parse payload with
              | none => Except.error (GitError.internalFault (strBytes "kvlm_parse raised"))
              | some kv => Except.ok (some (GitObject.commit kv))
            else if fmt = strBytes "tree" then
              match tree_parse payload with
              | none => Except.error (GitError.internalFault (strBytes "tree decode raised"))
              | some items => Except.ok (some (GitObject.tree items))
            else if fmt = strBytes "tag" then
              match kvlm_parse payload with
              | none => Except.error (GitError.internalFault (strBytes "kvlm_parse raised"))
              | some kv => Except.ok (some (GitObject.tag kv))
            else if fmt = strBytes "blob" then
              Except.ok (some (GitObject.blob payload))
            else
              Except.error (GitError.unknownType fmt sha)

/-- C3: for every choice of the external hash and compression functions,
writing the blob b"hello\n" into an empty store returns the digest of
exactly the byte string "blob 6\0hello\n" and creates exactly one file;
writing the same blob again returns the same digest and leaves the store
with that one file untouched. -/
theorem object_write_blob_idempotent :
    ∀ (sha1 : List Nat → List Nat) (compress : List Nat → List Nat),
      object_write sha1 compress (GitObject.blob (strBytes "hello\n")) (some []) =
        some (sha1 (strBytes "blob 6\x00hello\n"),
          some [(objPath (sha1 (strBytes "blob 6\x00hello\n")),
                 compress (strBytes "blob 6\x00hello\n"))]) ∧
      object_write sha1 compress (GitObject.blob (strBytes "hello\n"))
          (some [(objPath (sha1 (strBytes "blob 6\x00hello\n")),
                  compress (strBytes "blob 6\x00hello\n"))]) =
        some (sha1 (strBytes "blob 6\x00hello\n"),
          some [(objPath (sha1 (strBytes "blob 6\x00hello\n")),
                 compress (strBytes "blob 6\x00hello\n"))]) := by
  intro sha1 compress
  have hdr : strBytes "blob" ++ [32] ++ natToDecBytes (strBytes "hello\n").length ++
      [0] ++ strBytes "hello\n" = strBytes "blob 6\x00hello\n" := by decide
  constructor
  · unfold object_write
    simp only [GitObject.serializeResult, GitObject.fmt, hdr, lookupStore]
  · unfold object_write
    simp only [GitObject.serializeResult, GitObject.fmt, hdr, lookupStore, if_pos rfl]
    simp

/-- C5 counterexample: the claim says a missing file at the hash-derived
path reports NotFound (the absent value, not an error).  On a fresh store
with no fan-out directory objects/ab, no file exists at the path derived
from the hash "ab", yet the read does not return the absent value: the
source crashes, because repo_file returns None for the missing directory
and line 220 evaluates os.path.isfile(None), raising TypeError. -/
theorem object_read_notfound_counterexample :
    lookupStore [] (objPath (strBytes "ab")) = none ∧
    object_read id (fun _ => false) [] (strBytes "ab") =
      Except.error (GitError.internalFault
        (strBytes "TypeError: os.path.isfile(None)")) ∧
    object_read id (fun _ => false) [] (strBytes "ab") ≠ Except.ok none := by
  refine ⟨rfl, rfl, ?_⟩
  intro h
  exact Except.noConfusion h

/-- C5 (amended): object_read distinguishes its failure modes as follows.
When the two-character fan-out directory exists but no file is at the
hash-derived path, the read yields the Python None, not an error; when
the fan-out directory itself is absent, the read crashes with a TypeError
instead of reporting NotFound.  For a present file with a parsed header,
a declared size different from the remaining payload length is a
malformed-object error naming sha, and a matching size with an
unrecognized type token is an unknown-type error naming sha. -/
theorem object_read_failure_modes :
    ∀ (decompress : List Nat → List Nat) (objDirs : List Nat → Bool)
      (store : List (List Nat × List Nat)) (sha : List Nat),
      (objDirs (sha.take 2) = false →
        object_read decompress objDirs store sha =
          Except.error (GitError.internalFault
            (strBytes "TypeError: os.path.isfile(None)"))) ∧
      (objDirs (sha.take 2) = true →
        lookupStore store (objPath sha) = none →
        object_read decompress objDirs store sha = Except.ok none) ∧
      (∀ (fileData raw : List Nat) (x y : Nat) (size : Int),
        objDirs (sha.take 2) = true →
        lookupStore store (objPath sha) = some fileData →
        decompress fileData = raw →
        bfind raw 32 0 = some x →
        bfind raw 0 x = some y →
        pyIntOfAscii (pySlice raw x y) = some size →
        ((size ≠ (raw.length : Int) - (y : Int) - 1 →
            object_read decompress objDirs store sha =
              Except.error (GitError.malformedObject sha)) ∧
         (size = (raw.length : Int) - (y : Int) - 1 →
          pySlice raw 0 x ≠ strBytes "commit" →
          pySlice raw 0 x ≠ strBytes "tree" →
          pySlice raw 0 x ≠ strBytes "tag" →
          pySlice raw 0 x ≠ strBytes "blob" →
            object_read decompress objDirs store sha =
              Except.error (GitError.unknownType (pySlice raw 0 x) sha)))) := by
  intro decompress objDirs store sha
  refine ⟨fun hd => ?_, fun hd h => ?_, fun fileData raw x y size hd h1 h2 h3 h4 h5 => ?_⟩
  · unfold object_read
    rw [if_pos hd]
  · unfold object_read
    rw [if_neg (by simp [hd]), h]
  · constructor
    · intro hne
      unfold object_read
      rw [if_neg (by simp [hd]), h1]
      simp only [h2, h3, h4, h5]
      rw [if_pos hne]
    · intro heq hf1 hf2 hf3 hf4
      unfold object_read
      rw [if_neg (by simp [hd]), h1]
      simp only [h2, h3, h4, h5]
      rw [if_neg (fun hct => hct heq)]
      simp only [if_neg hf1, if_neg hf2, if_neg hf3, if_neg hf4]

/-- A stored object with a correct length but unknown type token "bloc". -/
def c5Good : List Nat := strBytes "bloc 1\x00z"

/-- A stored object whose declared length 5 differs from its payload
length 1. -/
def c5Bad : List Nat := strBytes "blob 5\x00z"

/-- The fan-out directory objects/ab exists, no other. -/
def c5Dirs : List Nat → Bool := fun p => decide (p = strBytes "ab")

/-- C5 witness: the four behaviors, each at a concrete state with the
identity standing in for decompression: directory present and file
absent, directory absent, wrong declared length, unknown type token. -/
theorem object_read_failure_modes_witness :
    object_read id c5Dirs [] (strBytes "ab") = Except.ok none ∧
    object_read id c5Dirs [] (strBytes "zz") =
      Except.error (GitError.internalFault
        (strBytes "TypeError: os.path.isfile(None)")) ∧
    object_read id c5Dirs [(objPath (strBytes "ab"), c5Bad)] (strBytes "ab") =
      Except.error (GitError.malformedObject (strBytes "ab")) ∧
    object_read id c5Dirs [(objPath (strBytes "ab"), c5Good)] (strBytes "ab") =
      Except.error (GitError.unknownType (strBytes "bloc") (strBytes "ab")) := by
  refine ⟨(object_read_failure_modes id c5Dirs [] (strBytes "ab")).2.1
      (by decide) rfl,
    (object_read_failure_modes id c5Dirs [] (strBytes "zz")).1 (by decide),
    ?_, ?_⟩
  · exact ((object_read_failure_modes id c5Dirs
      [(objPath (strBytes "ab"), c5Bad)] (strBytes "ab")).2.2
      c5Bad c5Bad 4 6 5 (by decide) (by decide) rfl
      (by decide) (by decide) (by decide)).1 (by decide)
  · have h := ((object_read_failure_modes id c5Dirs
      [(objPath (strBytes "ab"), c5Good)] (strBytes "ab")).2.2
      c5Good c5Good 4 6 1 (by decide) (by decide) rfl
      (by decide) (by decide) (by decide)).2
      (by decide) (by decide) (by decide) (by decide) (by decide)
    rw [show pySlice c5Good 0 4 = strBytes "bloc" by decide] at h
    exact h

/-! ## Reference resolver (src/libowngit.py lines 669-686 and 784-866) -/

/-- `ref_resolve` (lines 669-686) over the map from gitdir-relative ref
paths to ref file contents, with fuel for the recursion, which the source
leaves unguarded against indirection cycles.  `some` is the value the
source returns: the absent value None for a missing file (line 678), or
the terminal content; `none` means the recursion has not terminated
within `fuel` steps.  `content.dropLast` is the `fp.read()[:-1]` of line
681, and the "ref: " test and the drop of its five characters are lines
683-684. -/
def ref_resolveF (refFiles : List Nat → Option (List Nat)) :
    Nat → List Nat → Option (Option (List Nat))
  | 0, _ => none
  | fuel + 1, ref =>
    match refFiles ref with
    | none => some none
    | some content =>
      if bytesStartsWith content.dropLast (strBytes "ref: ") then
        ref_resolveF refFiles fuel (content.dropLast.drop 5)
      else some (some content.dropLast)

/-- More fuel never changes a result already reached. -/
theorem ref_resolveF_mono (refFiles : List Nat → Option (List Nat)) :
    ∀ (fuel fuel2 : Nat) (ref : List Nat) (r : Option (List Nat)),
      ref_resolveF refFiles fuel ref = some r → fuel ≤ fuel2 →
      ref_resolveF refFiles fuel2 ref = some r
  | 0, _, _, _, h, _ => by simp [ref_resolveF] at h
  | fuel + 1, 0, ref, r, h, hle => absurd hle (by omega)
  | fuel + 1, fuel2 + 1, ref, r, h, hle => by
    unfold ref_resolveF at h ⊢
    cases hrf : refFiles ref with
    | none => simp only [hrf] at h ⊢; exact h
    | some content =>
      simp only [hrf] at h ⊢
      by_cases hs : bytesStartsWith content.dropLast (strBytes "ref: ") = true
      · rw [if_pos hs] at h ⊢
        exact ref_resolveF_mono refFiles fuel fuel2 _ r h (by omega)
      · rw [if_neg hs] at h ⊢
        exact h

/-- The indirection chain from a reference reaches a terminal: the file is
missing, or its content is not a "ref: " indirection, or one indirection
step leads to a reference that reaches a terminal. -/
inductive RefReaches (refFiles : List Nat → Option (List Nat)) : List Nat → Prop
  | missing (ref : List Nat) : refFiles ref = none → RefReaches refFiles ref
  | direct (ref content : List Nat) : refFiles ref = some content →
      bytesStartsWith content.dropLast (strBytes "ref: ") = false →
      RefReaches refFiles ref
  | step (ref content : List Nat) : refFiles ref = some content →
      bytesStartsWith content.dropLast (strBytes "ref: ") = true →
      RefReaches refFiles (content.dropLast.drop 5) →
      RefReaches refFiles ref

/-- With enough fuel, a resolution that terminates returns a result. -/
theorem ref_resolveF_of_reaches {refFiles : List Nat → Option (List Nat)} :
    ∀ {ref : List Nat}, RefReaches refFiles ref →
      ∃ fuel r, ref_resolveF refFiles fuel ref = some r := by
  intro ref h
  induction h with
  | missing ref hrf =>
    exact ⟨1, none, by unfold ref_resolveF; rw [hrf]⟩
  | direct ref content hrf hs =>
    refine ⟨1, some content.dropLast, ?_⟩
    unfold ref_resolveF
    simp only [hrf]
    rw [if_neg (by simp [hs])]
  | step ref content hrf hs _ ih =>
    obtain ⟨fuel, r, hr⟩ := ih
    refine ⟨fuel + 1, r, ?_⟩
    unfold ref_resolveF
    simp only [hrf]
    rw [if_pos hs]
    exact hr

/-- A resolution that returns a result has a terminating chain. -/
theorem reaches_of_ref_resolveF {refFiles : List Nat → Option (List Nat)} :
    ∀ (fuel : Nat) (ref : List Nat) (r : Option (List Nat)),
      ref_resolveF refFiles fuel ref = some r → RefReaches refFiles ref
  | 0, _, _, h => by simp [ref_resolveF] at h
  | fuel + 1, ref, r, h => by
    unfold ref_resolveF at h
    cases hrf : refFiles ref with
    | none => exact RefReaches.missing ref hrf
    | some content =>
      simp only [hrf] at h
      by_cases hs : bytesStartsWith content.dropLast (strBytes "ref: ") = true
      · rw [if_pos hs] at h
        exact RefReaches.step ref content hrf hs
          (reaches_of_ref_resolveF fuel _ r h)
      · exact RefReaches.direct ref content hrf (by simpa using hs)

/-- The reference configuration with a self-referential indirection:
refs/self contains "ref: refs/self\n". -/
def cycleRefs : List Nat → Option (List Nat) :=
  fun r => if r = strBytes "refs/self" then some (strBytes "ref: refs/self\n") else none

/-- No amount of fuel resolves refs/self on the self-referential
configuration. -/
theorem ref_resolve_cycle_fuel :
    ∀ fuel : Nat, ref_resolveF cycleRefs fuel (strBytes "refs/self") = none := by
  intro fuel
  induction fuel with
  | zero => rfl
  | succ n ih =>
    have h1 : cycleRefs (strBytes "refs/self") =
        some (strBytes "ref: refs/self\n") := by decide
    have h2 : bytesStartsWith (strBytes "ref: refs/self\n").dropLast
        (strBytes "ref: ") = true := by decide
    have h3 : (strBytes "ref: refs/self\n").dropLast.drop 5 =
        strBytes "refs/self" := by decide
    have hstep : ref_resolveF cycleRefs (n + 1) (strBytes "refs/self") =
        ref_resolveF cycleRefs n (strBytes "refs/self") := by
      simp [ref_resolveF, h1, h2, h3]
    rw [hstep]
    exact ih

/-- C6 counterexample: the claim says resolution terminates for every
configuration of reference files, including a self-referential one.  On
the concrete configuration whose file refs/self contains "ref: refs/self"
resolution does not terminate: no fuel ever yields a result, so the
recursion of ref_resolve, which has no cycle guard, recurses unboundedly
(a RecursionError crash). -/
theorem ref_resolve_cycle_diverges :
    ¬ ∃ fuel r, ref_resolveF cycleRefs fuel (strBytes "refs/self") = some r := by
  rintro ⟨fuel, r, h⟩
  rw [ref_resolve_cycle_fuel fuel] at h
  exact Option.noConfusion h

/-- C6 (amended): resolution terminates exactly on the configurations
whose indirection chain from the reference reaches a terminal — a missing
target (resolving to the absent value, a resolution failure, not a crash)
or a non-indirect content (the fixed point); the result is stable under
extra fuel.  On a configuration with an indirection cycle the recursion
never terminates, as the counterexample shows, because the source has no
cycle guard. -/
theorem ref_resolve_terminates_iff :
    ∀ (refFiles : List Nat → Option (List Nat)) (ref : List Nat),
      ((∃ fuel r, ref_resolveF refFiles fuel ref = some r) ↔ RefReaches refFiles ref) ∧
      (∀ fuel fuel2 r, ref_resolveF refFiles fuel ref = some r → fuel ≤ fuel2 →
        ref_resolveF refFiles fuel2 ref = some r) := by
  intro refFiles ref
  constructor
  · constructor
    · rintro ⟨fuel, r, h⟩
      exact reaches_of_ref_resolveF fuel ref r h
    · intro h
      exact ref_resolveF_of_reaches h
  · intro fuel fuel2 r h hle
    exact ref_resolveF_mono refFiles fuel fuel2 ref r h hle

/-- An acyclic two-step configuration: HEAD indirects to a branch holding
a hash line. -/
def c6GoodRefs : List Nat → Option (List Nat) :=
  fun r =>
    if r = strBytes "HEAD" then some (strBytes "ref: refs/heads/m\n")
    else if r = strBytes "refs/heads/m" then some (strBytes "abc\n") else none

/-- C6 witness: on the acyclic configuration the chain reaches a terminal,
and the result at fuel 2 persists at fuel 5. -/
theorem ref_resolve_terminates_iff_witness :
    RefReaches c6GoodRefs (strBytes "HEAD") ∧
    ref_resolveF c6GoodRefs 5 (strBytes "HEAD") = some (some (strBytes "abc")) := by
  have h2 : ref_resolveF c6GoodRefs 2 (strBytes "HEAD") = some (some (strBytes "abc")) := by
    decide
  exact ⟨(ref_resolve_terminates_iff c6GoodRefs (strBytes "HEAD")).1.mp
      ⟨2, some (strBytes "abc"), h2⟩,
    (ref_resolve_terminates_iff c6GoodRefs (strBytes "HEAD")).2 2 5 _ h2 (by omega)⟩

/-- The repository file state the resolver consults: ref files keyed by
gitdir-relative path, and the listings of the object-store fan-out
directories keyed by the two-character prefix (`none` when repo_dir
returns None because the directory does not exist). -/
structure ResolverFs where
  refFiles : List Nat → Option (List Nat)
  objDirs : List Nat → Option (List (List Nat))

/-- Python str.strip() on ASCII data: surrounding whitespace dropped. -/
def pyStrip (s : List Nat) : List Nat :=
  ((s.dropWhile isPySpace).reverse.dropWhile isPySpace).reverse

/-- Python str.lower() on one ASCII code point. -/
def pyLowerByte (b : Nat) : Nat :=
  if 65 ≤ b ∧ b ≤ 90 then b + 32 else b

/-- The hashRE test of line 795: four to forty hex digits. -/
def isHexName (name : List Nat) : Bool :=
  decide (4 ≤ name.length ∧ name.length ≤ 40 ∧ ∀ b ∈ name, isHexByte b)

/-- `object_resolve` (lines 784-830).  Outer `none` is non-termination of
ref_resolve inside (only possible on an indirection cycle); `some none`
is the Python None returned for a blank name (line 799); the element in
the HEAD singleton (line 803) can itself be the Python None when HEAD
indirects to a missing branch.  Candidate order follows the source:
hash-prefix matches in directory-listing order, then the tag probe, then
the branch probe; a tag or branch result is appended only when truthy
(neither None nor empty), the `if as_tag:` tests of lines 823 and 827.
Line 810 rebinds name to name.lower() when the hex regex matches, so
every later use of name — the tag and branch probes included — sees the
lowered form; `name2` is that rebound variable. -/
def object_resolve (fuel : Nat) (fs : ResolverFs) (name : List Nat) :
    Option (Option (List (Option (List Nat)))) :=
  if pyStrip name = [] then some none
  else if name = strBytes "HEAD" then
    match ref_resolveF fs.refFiles fuel (strBytes "HEAD") with
    | none => none
    | some r => some (some [r])
  else
    let name2 := if isHexName name then name.map pyLowerByte else name
    let cands1 : List (Option (List Nat)) :=
      if isHexName name then
        match fs.objDirs (name2.take 2) with
        | none => []
        | some listing =>
          (listing.filter fun f =>
            bytesStartsWith f (name2.drop 2)).map
            fun f => some (name2.take 2 ++ f)
      else []
    match ref_resolveF fs.refFiles fuel (strBytes "refs/tags/" ++ name2) with
    | none => none
    | some tagRes =>
      let cands2 := cands1 ++
        (match tagRes with
         | some s => if s ≠ [] then [some s] else []
         | none => [])
      match ref_resolveF fs.refFiles fuel (strBytes "refs/heads/" ++ name2) with
      | none => none
      | some brRes =>
        some (some (cands2 ++
          (match brRes with
           | some s => if s ≠ [] then [some s] else []
           | none => [])))

/-- Python bytes.decode("ascii"): the identity below 128, an exception
otherwise. -/
def bytesDecodeAscii (bs : List Nat) : Option (List Nat) :=
  if bs.all (· < 128) then some bs else none

/-- Python `kvlm[key]` on the modelled fields. -/
def kvlmGet : List (List Nat × KvVal) → List Nat → Option KvVal
  | [], _ => none
  | (k0, v) :: rest, k => if k0 = k then some v else kvlmGet rest k

/-- The `while True` follow loop of `object_find` (lines 847-866), with
fuel.  Outer `none` is non-termination (a tag cycle) or an unmodelled
runtime fault of the source: reading an object through a Python None sha,
obj being None, a missing or list-valued kvlm entry, a payload that does
not decode as ASCII. -/
def object_findLoop (decompress : List Nat → List Nat) (objDirs : List Nat → Bool)
    (store : List (List Nat × List Nat)) (fmt : List Nat) (follow : Bool) :
    Nat → Option (List Nat) → Option (Except GitError (Option (List Nat)))
  | 0, _ => none
  | fuel + 1, sha =>
    match sha with
    | none => none
    | some s =>
      match object_read decompress objDirs store s with
      | Except.error e => some (Except.error e)
      | Except.ok none => none
      | Except.ok (some obj) =>
        if obj.fmt = fmt then some (Except.ok (some s))
        else if follow = false then some (Except.ok none)
        else
          match obj with
          | GitObject.tag kv =>
            match kvlmGet kv.fields (strBytes "object") with
            | some (KvVal.single v) =>
              match bytesDecodeAscii v with
              | some s2 =>
                object_findLoop decompress objDirs store fmt follow fuel (some s2)
              | none => none
            | _ => none
          | GitObject.commit kv =>
            if fmt = strBytes "tree" then
              match kvlmGet kv.fields (strBytes "tree") with
              | some (KvVal.single v) =>
                match bytesDecodeAscii v with
                | some s2 =>
                object_findLoop decompress objDirs store fmt follow fuel (some s2)
                | none => none
              | _ => none
            else some (Except.ok none)
          | _ => some (Except.ok none)

/-- `object_find` (lines 833-866): resolve the name; a falsy result (the
Python None, or an empty candidate list) raises "No such reference
<name>"; two or more candidates raise "Ambiguous reference <name>:
Candidates are ..." with the whole list; otherwise the single candidate is
returned directly when no type is wanted, else the follow loop runs; the
loop reads objects through the same filesystem object_resolve consults,
so the fan-out directory presence handed to object_read is fs.objDirs. -/
def object_find (fuel : Nat) (decompress : List Nat → List Nat)
    (store : List (List Nat × List Nat)) (fs : ResolverFs) (name : List Nat)
    (fmt : Option (List Nat)) (follow : Bool) :
    Option (Except GitError (Option (List Nat))) :=
  match object_resolve fuel fs name with
  | none => none
  | some none => some (Except.error (GitError.noSuchReference name))
  | some (some []) => some (Except.error (GitError.noSuchReference name))
  | some (some (c :: rest)) =>
    if rest.length > 0 then
      some (Except.error (GitError.ambiguousReference name (c :: rest)))
    else
      match fmt with
      | none => some (Except.ok c)
      | some f =>
        object_findLoop decompress (fun pfx => (fs.objDirs pfx).isSome)
          store f follow fuel c

/-- C4: the candidate logic of object_find, for every repository state and
name, given what object_resolve collected: a Python-None result or an
empty candidate list is a not-found failure naming the input name;
exactly one candidate is returned as is (no wanted type); two or more
candidates are an ambiguous failure carrying exactly the whole candidate
list, never a silent pick of one. -/
theorem object_find_candidates :
    ∀ (fuel : Nat) (decompress : List Nat → List Nat)
      (store : List (List Nat × List Nat)) (fs : ResolverFs) (name : List Nat)
      (fmt : Option (List Nat)) (follow : Bool),
      (object_resolve fuel fs name = some none →
        object_find fuel decompress store fs name fmt follow =
          some (Except.error (GitError.noSuchReference name))) ∧
      (object_resolve fuel fs name = some (some []) →
        object_find fuel decompress store fs name fmt follow =
          some (Except.error (GitError.noSuchReference name))) ∧
      (∀ c, object_resolve fuel fs name = some (some [c]) →
        object_find fuel decompress store fs name none follow =
          some (Except.ok c)) ∧
      (∀ cs, object_resolve fuel fs name = some (some cs) → 1 < cs.length →
        object_find fuel decompress store fs name fmt follow =
          some (Except.error (GitError.ambiguousReference name cs))) := by
  intro fuel decompress store fs name fmt follow
  refine ⟨fun h => ?_, fun h => ?_, fun c h => ?_, fun cs h hlen => ?_⟩
  · unfold object_find; simp only [h]
  · unfold object_find; simp only [h]
  · unfold object_find; simp only [h]; rfl
  · unfold object_find
    simp only [h]
    cases cs with
    | nil => simp at hlen
    | cons c rest =>
      have hr : rest.length > 0 := by simp at hlen; omega
      simp [hr]

/-- A repository with no refs and no objects. -/
def c4FsEmpty : ResolverFs := ⟨fun _ => none, fun _ => none⟩

/-- A repository with one lightweight tag v -> abc. -/
def c4FsTag : ResolverFs :=
  ⟨fun r => if r = strBytes "refs/tags/v" then some (strBytes "abc\n") else none,
   fun _ => none⟩

/-- A repository whose objects/ab directory holds two files both starting
with cd, so the short hash abcd is ambiguous. -/
def c4FsAmb : ResolverFs :=
  ⟨fun _ => none,
   fun p => if p = strBytes "ab" then
     some [strBytes "cd11", strBytes "cd22"] else none⟩

/-- C4 witness: the four candidate behaviors at concrete repository
states: a blank name (Python-None resolve result), a name matching
nothing, a name with exactly one tag candidate, and a short hash with two
object candidates. -/
theorem object_find_candidates_witness :
    object_find 3 id [] c4FsEmpty (strBytes " ") none true =
      some (Except.error (GitError.noSuchReference (strBytes " "))) ∧
    object_find 3 id [] c4FsEmpty (strBytes "zz") none true =
      some (Except.error (GitError.noSuchReference (strBytes "zz"))) ∧
    object_find 3 id [] c4FsTag (strBytes "v") none true =
      some (Except.ok (some (strBytes "abc"))) ∧
    object_find 3 id [] c4FsAmb (strBytes "abcd") none true =
      some (Except.error (GitError.ambiguousReference (strBytes "abcd")
        [some (strBytes "abcd11"), some (strBytes "abcd22")])) :=
  ⟨(object_find_candidates 3 id [] c4FsEmpty (strBytes " ") none true).1 (by decide),
   (object_find_candidates 3 id [] c4FsEmpty (strBytes "zz") none true).2.1 (by decide),
   (object_find_candidates 3 id [] c4FsTag (strBytes "v") none true).2.2.1
     (some (strBytes "abc")) (by decide),
   (object_find_candidates 3 id [] c4FsAmb (strBytes "abcd") none true).2.2.2
     [some (strBytes "abcd11"), some (strBytes "abcd22")] (by decide) (by decide)⟩

/-- A fresh repository: HEAD indirects to refs/heads/master, which does
not exist yet. -/
def headFs : ResolverFs :=
  ⟨fun r => if r = strBytes "HEAD" then
      some (strBytes "ref: refs/heads/master\n") else none,
   fun _ => none⟩

/-- C10: resolving the name HEAD on a fresh repository, whose HEAD file
indirects to a branch file that does not exist, collects the single
candidate None (the absent value), and object_find with no wanted type
returns that absent value instead of raising a not-found failure — for
every fuel of at least the two steps the chain takes. -/
theorem object_find_head_unborn :
    ∀ fuel : Nat,
      object_resolve (fuel + 2) headFs (strBytes "HEAD") = some (some [none]) ∧
      object_find (fuel + 2) id [] headFs (strBytes "HEAD") none true =
        some (Except.ok none) := by
  intro fuel
  have hres : ref_resolveF headFs.refFiles (fuel + 2) (strBytes "HEAD") = some none := by
    have h1 : headFs.refFiles (strBytes "HEAD") =
        some (strBytes "ref: refs/heads/master\n") := by decide
    have h2 : bytesStartsWith (strBytes "ref: refs/heads/master\n").dropLast
        (strBytes "ref: ") = true := by decide
    have h3 : (strBytes "ref: refs/heads/master\n").dropLast.drop 5 =
        strBytes "refs/heads/master" := by decide
    have h4 : headFs.refFiles (strBytes "refs/heads/master") = none := by decide
    show ref_resolveF headFs.refFiles (fuel + 1 + 1) (strBytes "HEAD") = some none
    simp only [ref_resolveF, h1, h2, h3, if_true]
    cases fuel with
    | zero => simp [ref_resolveF, h4]
    | succ n => simp [ref_resolveF, h4]
  have hresolve : object_resolve (fuel + 2) headFs (strBytes "HEAD") =
      some (some [none]) := by
    unfold object_resolve
    rw [if_neg (by decide), if_pos rfl]
    simp only [hres]
  refine ⟨hresolve, ?_⟩
  unfold object_find
  simp only [hresolve]
  rfl

/-! ## Index store (src/libowngit.py lines 910-1064) -/

/-- One staging-index entry (lines 910-941), with the name kept as its
raw bytes (the source decodes them as UTF-8, a bijection on valid names). -/
structure GitIndexEntry where
  ctime : Nat × Nat
  mtime : Nat × Nat
  dev : Nat
  ino : Nat
  mode_type : Nat
  mode_perms : Nat
  uid : Nat
  gid : Nat
  fsize : Nat
  sha : List Nat
  flag_assume_valid : Bool
  flag_stage : Nat
  name : List Nat
  deriving DecidableEq, Repr

/-- The staging index (lines 944-955): format version, 2 by default, and
the entry list. -/
structure GitIndex where
  version : Nat
  entries : List GitIndexEntry
  deriving DecidableEq, Repr

/-- The entry-decoding loop of `index_read` (lines 978-1062): decode the
given number of fixed-layout entries from `content` starting at `idx`.
All multi-byte fields are big-endian; the bit fields of the mode and flag
words are expressed with division and remainder (the words are 16-bit, so
the masks of the source coincide with these).  A failing assert (nonzero
unused field, bad mode type, extended flag set, missing NUL terminator)
raises; the out-of-range indexing or -1 find the source can hit on
truncated data is an internal fault. -/
def index_read_entries (content : List Nat) :
    Nat → Nat → Except GitError (List GitIndexEntry)
  | 0, _ => Except.ok []
  | count + 1, idx =>
    if bytesToNatBE (pySlice content (idx + 24) (idx + 26)) ≠ 0 then
      Except.error (GitError.assertFailed (strBytes "unused field not zero"))
    else if ¬(bytesToNatBE (pySlice content (idx + 26) (idx + 28)) / 4096 = 8 ∨
        bytesToNatBE (pySlice content (idx + 26) (idx + 28)) / 4096 = 10 ∨
        bytesToNatBE (pySlice content (idx + 26) (idx + 28)) / 4096 = 14) then
      Except.error (GitError.assertFailed (strBytes "bad mode type"))
    else if (bytesToNatBE (pySlice content (idx + 60) (idx + 62)) / 16384) % 2 = 1 then
      Except.error (GitError.assertFailed (strBytes "extended flag unsupported"))
    else
      let flags := bytesToNatBE (pySlice content (idx + 60) (idx + 62))
      let entry := fun (raw_name : List Nat) =>
        { ctime := (bytesToNatBE (pySlice content idx (idx + 4)),
                    bytesToNatBE (pySlice content (idx + 4) (idx + 8))),
          mtime := (bytesToNatBE (pySlice content (idx + 8) (idx + 12)),
                    bytesToNatBE (pySlice content (idx + 12) (idx + 16))),
          dev := bytesToNatBE (pySlice content (idx + 16) (idx + 20)),
          ino := bytesToNatBE (pySlice content (idx + 20) (idx + 24)),
          mode_type := bytesToNatBE (pySlice content (idx + 26) (idx + 28)) / 4096,
          mode_perms := bytesToNatBE (pySlice content (idx + 26) (idx + 28)) % 512,
          uid := bytesToNatBE (pySlice content (idx + 28) (idx + 32)),
          gid := bytesToNatBE (pySlice content (idx + 32) (idx + 36)),
          fsize := bytesToNatBE (pySlice content (idx + 36) (idx + 40)),
          sha := natToHexBE 40 (bytesToNatBE (pySlice content (idx + 40) (idx + 60))),
          flag_assume_valid := (flags / 32768) % 2 = 1,
          flag_stage := (flags / 4096 % 4) * 4096,
          name := raw_name : GitIndexEntry }
      if flags % 4096 < 0xFFF then
        match content.get? (idx + 62 + flags % 4096) with
        | none =>
          Except.error (GitError.internalFault (strBytes "name terminator out of range"))
        | some b =>
          if b ≠ 0 then
            Except.error (GitError.assertFailed (strBytes "name not NUL terminated"))
          else
            match index_read_entries content count
                (8 * ((idx + 62 + flags % 4096 + 1 + 7) / 8)) with
            | Except.error e => Except.error e
            | Except.ok rest =>
              Except.ok (entry (pySlice content (idx + 62) (idx + 62 + flags % 4096)) :: rest)
      else
        match bfind content 0 (idx + 62 + 0xFFF) with
        | none => Except.error (GitError.internalFault (strBytes "no NUL after long name"))
        | some null_idx =>
          match index_read_entries content count (8 * ((null_idx + 1 + 7) / 8)) with
          | Except.error e => Except.error e
          | Except.ok rest =>
            Except.ok (entry (pySlice content (idx + 62) null_idx) :: rest)

/-- `index_read` (lines 957-1064) over the optional contents of the index
file.  A missing file is the normal empty index GitIndex() of version 2
(lines 960-962); otherwise the 12-byte header is validated: signature
DIRC, then version exactly 2 (the assert of line 971), then the declared
entry count is decoded. -/
def index_read (file : Option (List Nat)) : Except GitError GitIndex :=
  match file with
  | none => Except.ok ⟨2, []⟩
  | some raw =>
    if pySlice (pySlice raw 0 12) 0 4 ≠ strBytes "DIRC" then
      Except.error (GitError.assertFailed (strBytes "bad signature"))
    else if bytesToNatBE (pySlice (pySlice raw 0 12) 4 8) ≠ 2 then
      Except.error (GitError.assertFailed
        (strBytes "wyag only supports index file version 2"))
    else
      match index_read_entries (raw.drop 12)
          (bytesToNatBE (pySlice (pySlice raw 0 12) 8 12)) 0 with
      | Except.error e => Except.error e
      | Except.ok entries =>
        Except.ok ⟨bytesToNatBE (pySlice (pySlice raw 0 12) 4 8), entries⟩

/-- C8: reading the index when no index file exists returns an empty
index of format version 2 with no entries as a normal non-error result;
reading a file whose 4-byte big-endian version field holds any value
other than 2 fails fatally (one of the two header asserts raises). -/
theorem index_read_header :
    (index_read none = Except.ok ⟨2, []⟩) ∧
    (∀ raw : List Nat, bytesToNatBE (pySlice raw 4 8) ≠ 2 →
      ∃ e, index_read (some raw) = Except.error e) := by
  refine ⟨rfl, fun raw hv => ?_⟩
  have heq : pySlice (pySlice raw 0 12) 4 8 = pySlice raw 4 8 := by
    unfold pySlice
    simp [List.drop_take, List.take_take]
  have hbody : index_read (some raw) =
      (if pySlice (pySlice raw 0 12) 0 4 ≠ strBytes "DIRC" then
        Except.error (GitError.assertFailed (strBytes "bad signature"))
      else if bytesToNatBE (pySlice (pySlice raw 0 12) 4 8) ≠ 2 then
        Except.error (GitError.assertFailed
          (strBytes "wyag only supports index file version 2"))
      else
        match index_read_entries (raw.drop 12)
            (bytesToNatBE (pySlice (pySlice raw 0 12) 8 12)) 0 with
        | Except.error e => Except.error e
        | Except.ok entries =>
          Except.ok ⟨bytesToNatBE (pySlice (pySlice raw 0 12) 4 8), entries⟩) := rfl
  by_cases hsig : pySlice (pySlice raw 0 12) 0 4 ≠ strBytes "DIRC"
  · exact ⟨_, by rw [hbody, if_pos hsig]⟩
  · exact ⟨_, by
      rw [hbody, if_neg hsig,
        if_pos (show bytesToNatBE (pySlice (pySlice raw 0 12) 4 8) ≠ 2 from by
          rw [heq]; exact hv)]⟩

/-- C8 witness: the two behaviors at concrete inputs: no file, and an
empty file whose version field reads zero. -/
theorem index_read_header_witness :
    index_read none = Except.ok ⟨2, []⟩ ∧
    ∃ e, index_read (some []) = Except.error e :=
  ⟨index_read_header.1, index_read_header.2 [] (by decide)⟩

/-! ## Checkout engine (src/libowngit.py lines 630-661) -/

/-- A filesystem snapshot for the checkout engine: the directories and
the files with their contents.  A path is its list of segments;
os.path.join(path, name) appends one segment. -/
structure Fs where
  dirs : List (List (List Nat))
  files : List (List (List Nat) × List Nat)
  deriving DecidableEq, Repr

/-- os.path.exists. -/
def fsExists (fs : Fs) (p : List (List Nat)) : Bool :=
  fs.dirs.contains p || (fs.files.map Prod.fst).contains p

/-- os.path.isdir. -/
def fsIsDir (fs : Fs) (p : List (List Nat)) : Bool :=
  fs.dirs.contains p

/-- os.listdir: the names of the immediate children of p. -/
def fsListdir (fs : Fs) (p : List (List Nat)) : List (List Nat) :=
  (fs.dirs ++ fs.files.map Prod.fst).filterMap fun q =>
    if q.take p.length = p ∧ q.length = p.length + 1 then q.getLast? else none

/-- os.makedirs: create the directory and its missing ancestors. -/
def fsMakedirs (fs : Fs) (p : List (List Nat)) : Fs :=
  { fs with dirs := ((List.range p.length).map fun k => p.take (k + 1)) ++ fs.dirs }

/-- os.mkdir: create one directory. -/
def fsMkdir (fs : Fs) (p : List (List Nat)) : Fs :=
  { fs with dirs := p :: fs.dirs }

/-- open(dest, "wb").write: record the file contents. -/
def fsWrite (fs : Fs) (p : List (List Nat)) (data : List Nat) : Fs :=
  { fs with files := (p, data) :: fs.files }

/-- `tree_checkout` (lines 650-661), with fuel bounding the total number
of steps (on a cyclic object graph the source recurses unboundedly:
outer `none`).  An error from object_read carries the filesystem state at
raise time; `none` also covers the unmodelled fault of obj being the
Python None.  A commit or tag child matches neither branch and is
silently skipped, exactly as in the source (no else clause). -/
def tree_checkoutF (decompress : List Nat → List Nat) (objDirs : List Nat → Bool)
    (store : List (List Nat × List Nat)) :
    Nat → List GitTreeLeaf → List (List Nat) → Fs →
    Option (Except (GitError × Fs) Fs)
  | 0, _, _, _ => none
  | _ + 1, [], _, fs => some (Except.ok fs)
  | fuel + 1, item :: rest, path, fs =>
    match object_read decompress objDirs store item.sha with
    | Except.error e => some (Except.error (e, fs))
    | Except.ok none => none
    | Except.ok (some obj) =>
      match obj with
      | GitObject.tree items =>
        match tree_checkoutF decompress objDirs store fuel items (path ++ [item.path])
            (fsMkdir fs (path ++ [item.path])) with
        | none => none
        | some (Except.error e) => some (Except.error e)
        | some (Except.ok fs2) =>
          tree_checkoutF decompress objDirs store fuel rest path fs2
      | GitObject.blob data =>
        tree_checkoutF decompress objDirs store fuel rest path
          (fsWrite fs (path ++ [item.path]) data)
      | _ => tree_checkoutF decompress objDirs store fuel rest path fs

/-- `cmd_checkout` (lines 630-648) from the point where the named object
has been read: a commit is first dereferenced to its tree through the
store (lines 636-637); then the destination precondition of lines
640-646: an existing non-directory raises "Not a directory", an existing
directory with entries raises "Not empty", a missing destination is
created with makedirs; finally tree_checkout materializes the tree.
Errors carry the filesystem at raise time; `none` is an unmodelled fault
(a missing or list-valued tree entry in the commit, a payload that does
not decode, obj being the Python None, a non-tree object reaching
tree_checkout) or non-termination. -/
def cmd_checkout (decompress : List Nat → List Nat) (objDirs : List Nat → Bool)
    (store : List (List Nat × List Nat)) (fuel : Nat) (obj0 : GitObject)
    (path : List (List Nat)) (fs : Fs) : Option (Except (GitError × Fs) Fs) :=
  match
    (match obj0 with
     | GitObject.commit kv =>
       match kvlmGet kv.fields (strBytes "tree") with
       | some (KvVal.single v) =>
         match bytesDecodeAscii v with
         | some s =>
           match object_read decompress objDirs store s with
           | Except.error e => some (Except.error (e, fs))
           | Except.ok none => none
           | Except.ok (some o) => some (Except.ok o)
         | none => none
       | _ => none
     | o => some (Except.ok o) : Option (Except (GitError × Fs) GitObject))
  with
  | none => none
  | some (Except.error e) => some (Except.error e)
  | some (Except.ok obj) =>
    if fsExists fs path then
      if ¬ fsIsDir fs path then
        some (Except.error (GitError.notADirectory path, fs))
      else if fsListdir fs path ≠ [] then
        some (Except.error (GitError.notEmpty path, fs))
      else
        match obj with
        | GitObject.tree items =>
          tree_checkoutF decompress objDirs store fuel items path fs
        | _ => none
    else
      match obj with
      | GitObject.tree items =>
        tree_checkoutF decompress objDirs store fuel items path (fsMakedirs fs path)
      | _ => none

/-- C9: the checkout precondition, for every store, tree and filesystem
state: a destination that exists as a non-directory fails with "Not a
directory" with the filesystem untouched (the state carried by the error
is the input state, so nothing was written); an existing directory
holding at least one entry fails with "Not empty", likewise untouched; a
missing destination is created and checkout proceeds on the tree. -/
theorem cmd_checkout_precondition :
    ∀ (decompress : List Nat → List Nat) (objDirs : List Nat → Bool)
      (store : List (List Nat × List Nat))
      (fuel : Nat) (items : List GitTreeLeaf) (path : List (List Nat)) (fs : Fs),
      (fsExists fs path = true → fsIsDir fs path = false →
        cmd_checkout decompress objDirs store fuel (GitObject.tree items) path fs =
          some (Except.error (GitError.notADirectory path, fs))) ∧
      (fsIsDir fs path = true → fsListdir fs path ≠ [] →
        cmd_checkout decompress objDirs store fuel (GitObject.tree items) path fs =
          some (Except.error (GitError.notEmpty path, fs))) ∧
      (fsExists fs path = false →
        cmd_checkout decompress objDirs store fuel (GitObject.tree items) path fs =
          tree_checkoutF decompress objDirs store fuel items path
            (fsMakedirs fs path)) := by
  intro decompress objDirs store fuel items path fs
  refine ⟨fun hex hdir => ?_, fun hdir hne => ?_, fun hex => ?_⟩
  · unfold cmd_checkout
    simp [hex, hdir]
  · have hex : fsExists fs path = true := by
      unfold fsIsDir at hdir
      unfold fsExists
      rw [hdir]
      simp
    unfold cmd_checkout
    simp [hex, hdir, hne]
  · unfold cmd_checkout
    simp [hex]

/-- A filesystem with a plain file at d. -/
def c9FsFile : Fs := ⟨[], [([strBytes "d"], [])]⟩

/-- A filesystem with a directory d containing one entry x. -/
def c9FsDir : Fs := ⟨[[strBytes "d"], [strBytes "d", strBytes "x"]], []⟩

/-- C9 witness: both precondition failures at concrete destinations, the
filesystem untouched in each. -/
theorem cmd_checkout_precondition_witness :
    cmd_checkout id (fun _ => false) [] 1 (GitObject.tree [])
        [strBytes "d"] c9FsFile =
      some (Except.error (GitError.notADirectory [strBytes "d"], c9FsFile)) ∧
    cmd_checkout id (fun _ => false) [] 1 (GitObject.tree [])
        [strBytes "d"] c9FsDir =
      some (Except.error (GitError.notEmpty [strBytes "d"], c9FsDir)) :=
  ⟨(cmd_checkout_precondition id (fun _ => false) [] 1 [] [strBytes "d"] c9FsFile).1
     (by decide) (by decide),
   (cmd_checkout_precondition id (fun _ => false) [] 1 [] [strBytes "d"] c9FsDir).2.1
     (by decide) (by decide)⟩
